import Mathlib

/-!
Verification of the image-preprocessing core of this repository
(`lakera_clip/preprocessor.py`, class `Preprocess`).

The shallow embedding below follows the Python source line by line:

* a decoded image (`np.array` of a PIL image) is an `NpImg`: a grid of
  8-bit samples (`Nat`, with validity `≤ 255` stated where a claim needs
  it) with `c` channels, `c = 1` standing for the 2-D `(h, w)` array that
  NumPy produces for a grayscale PIL image;
* floating-point arithmetic of the pipeline is carried out exactly in `ℚ`
  (the final `astype(np.float32)` narrowing is not modelled; every value
  claim below is about the exact arithmetic the spec describes);
* fallible steps return `Except PyErr`, one constructor per way the
  Python code can raise.

External collaborators (`cv2.resize`, `np.pad`, `np.transpose`,
`np.reshape`, Python's `round`) are not code of this repository; each is
embedded by its documented interface contract, stated in its doc comment.
-/

namespace LakeraClip

/-- A decoded image as NumPy renders a PIL image: `h × w` spatial grid,
`c` channels of 8-bit samples.  `c = 1` stands for a 2-D `(h, w)` array
(grayscale); `c ≥ 2` for an `(h, w, c)` array.  Samples are a total
function; grid entries outside `y < h, x < w, ch < c` are irrelevant
(proved below as the purity claim). -/
structure NpImg where
  h : Nat
  w : Nat
  c : Nat
  pix : Nat → Nat → Nat → Nat

/-- An image whose samples have become exact rationals (after `img / 255.0`). -/
structure QImg where
  h : Nat
  w : Nat
  c : Nat
  pix : Nat → Nat → Nat → ℚ

/-- A channel-first array, the result of `np.transpose(img, (2, 0, 1))`. -/
structure CHWImg where
  c : Nat
  h : Nat
  w : Nat
  dat : Nat → Nat → Nat → ℚ

/-- The output tensor, `reshape(1, 3, 224, 224)` of the transposed array. -/
@[ext]
structure Tensor4 where
  shape : Nat × Nat × Nat × Nat
  dat : Fin 1 → Fin 3 → Fin 224 → Fin 224 → ℚ

/-- The ways a call into `Preprocess` can raise.  `inputTypeError` is the
`AssertionError` of `_assert_pil` (the spec's name for it); `shapeError`
is an error kind named only by the spec, listed here so that statements
can compare against it — no code path produces it. -/
inductive PyErr where
  | inputTypeError
  | zeroDivisionError
  | cvResizeError
  | broadcastError
  | reshapeError
  | shapeError
  deriving DecidableEq

/-- Fixed class constant `CLIP_INPUT_SIZE = 224` (the spec's `TARGET_SIZE`). -/
def CLIP_INPUT_SIZE : Nat := 224

/-- Fixed class constant `CROP_CENTER_PADDING = 224` (the spec's `PAD`). -/
def CROP_CENTER_PADDING : Nat := 224

/-- Fixed class constant `NORM_MEAN = [0.485, 0.456, 0.406]`, exact decimals. -/
def NORM_MEAN : List ℚ := [0.485, 0.456, 0.406]

/-- Fixed class constant `NORM_STD = [0.229, 0.224, 0.225]`, exact decimals. -/
def NORM_STD : List ℚ := [0.229, 0.224, 0.225]

/-- `resized_sq_size = Preprocess.CLIP_INPUT_SIZE + 2 * Preprocess.CROP_CENTER_PADDING`. -/
def resizedSqSize : Nat := CLIP_INPUT_SIZE + 2 * CROP_CENTER_PADDING

/-- Python's built-in `round` applied to the quotient `resized * side / other`:
round half to even.  The Python quotient is IEEE-double division of two
exact machine integers; whenever the exact rational quotient is a
half-integer it is representable, the division is exact, and `round`
picks the even neighbour, so on the inputs of this pipeline Python's
`round` agrees with round-half-to-even of the exact rational modelled here. -/
def pyRound (q : ℚ) : ℤ :=
  if q - ⌊q⌋ < 1/2 then ⌊q⌋
  else if 1/2 < q - ⌊q⌋ then ⌊q⌋ + 1
  else if 2 ∣ ⌊q⌋ then ⌊q⌋ else ⌊q⌋ + 1

/-- Lines 28–33 of `_smart_resize`: the target size of the
ratio-preserving resize, as a pair `(resized_h, resized_w)`.  Python's
`/` raises `ZeroDivisionError` when the divisor is `0`; in the `h > w`
branch the divisor `h` is positive, in the other branch the divisor is
`w`, hence the guard. -/
def smartResizeDims (h w : Nat) : Except PyErr (Nat × Nat) :=
  if w < h then
    .ok (resizedSqSize, (pyRound ((resizedSqSize * w : ℚ) / h)).toNat)
  else if w = 0 then .error .zeroDivisionError
  else .ok ((pyRound ((resizedSqSize * h : ℚ) / w)).toNat, resizedSqSize)

/-- Line 36, `cv.resize(img, (resized_w, resized_h), interpolation=cv.INTER_LINEAR)`.
OpenCV is external to this repository; it is embedded by its interface
contract: it rejects an empty target size (`dsize` with a zero side fails
a `CV_Assert`), and otherwise returns an image of the requested size with
the channel count preserved, every output sample taken from the source
grid at the ratio-mapped position.  The sampling formula is a stand-in
for `INTER_LINEAR`: every property proved below depends only on the
output shape, the channel count, and each output sample being an 8-bit
source sample (all true of `INTER_LINEAR` on `uint8` input). -/
def cvResizeImg (img : NpImg) (rw rh : Nat) : NpImg :=
  { h := rh, w := rw, c := img.c,
    pix := fun y x ch =>
      img.pix (min (y * img.h / rh) (img.h - 1)) (min (x * img.w / rw) (img.w - 1)) ch }

/-- The fallible wrapper around `cvResizeImg`: an empty requested size
fails the `CV_Assert`, anything else resizes. -/
def cvResize (img : NpImg) (rw rh : Nat) : Except PyErr NpImg :=
  if rw = 0 ∨ rh = 0 then .error .cvResizeError
  else .ok (cvResizeImg img rw rh)

/-- Lines 38–59 of `_smart_resize`: `np.pad` with
`((vert_pad, vert_residual - vert_pad), (hor_pad, hor_residual - hor_pad))`
and `(0, 0)` on the channel axis when one is present, `constant_values=0`.
The residuals are the `Nat` subtractions `resizedSqSize - r.h/w`; the
resized image never exceeds `resizedSqSize` on either axis (proved
below), so this matches the Python `int` arithmetic.  The output length
on each spatial axis is `before + old + after`, exactly as `np.pad`
computes it; the channel count is untouched. -/
def npPadSquare (r : NpImg) : NpImg :=
  { h := (resizedSqSize - r.h) / 2 + r.h
        + ((resizedSqSize - r.h) - (resizedSqSize - r.h) / 2),
    w := (resizedSqSize - r.w) / 2 + r.w
        + ((resizedSqSize - r.w) - (resizedSqSize - r.w) / 2),
    c := r.c,
    pix := fun y x ch =>
      if (resizedSqSize - r.h) / 2 ≤ y ∧ y < (resizedSqSize - r.h) / 2 + r.h
          ∧ (resizedSqSize - r.w) / 2 ≤ x ∧ x < (resizedSqSize - r.w) / 2 + r.w then
        r.pix (y - (resizedSqSize - r.h) / 2) (x - (resizedSqSize - r.w) / 2) ch
      else 0 }

/-- `Preprocess._smart_resize`: ratio-preserving resize, then pad to the
square.  (`np.array(img)` on line 18 is the identity on the embedded
grid.) -/
def smartResize (img : NpImg) : Except PyErr NpImg :=
  match smartResizeDims img.h img.w with
  | .error e => .error e
  | .ok (rh, rw) =>
    match cvResize img rw rh with
    | .error e => .error e
    | .ok r => .ok (npPadSquare r)

/-- Lines 84–87: `img[PAD : -PAD, PAD : -PAD]`.  A Python slice
`a[k : -k]` of a length-`n` axis keeps `max 0 ((n - k) - k)` entries
starting at offset `k`, which is the `Nat` subtraction `n - 2 * k`. -/
def centerCrop (r : NpImg) : NpImg :=
  { h := r.h - 2 * CROP_CENTER_PADDING,
    w := r.w - 2 * CROP_CENTER_PADDING,
    c := r.c,
    pix := fun y x ch => r.pix (y + CROP_CENTER_PADDING) (x + CROP_CENTER_PADDING) ch }

/-- Line 90: `img = img / 255.0`, exact rational division. -/
def scaleTo01 (r : NpImg) : QImg :=
  { h := r.h, w := r.w, c := r.c, pix := fun y x ch => (r.pix y x ch : ℚ) / 255 }

/-- Lines 93–96: if the array is 2-D (grayscale), `np.expand_dims` then
`np.concatenate((img,) * 3, axis=2)` — three copies of the single channel. -/
def grayPromote (q : QImg) : QImg :=
  if q.c = 1 then
    { h := q.h, w := q.w, c := 3, pix := fun y x _ => q.pix y x 0 }
  else q

/-- Line 99: `(img - NORM_MEAN) / NORM_STD` with the constants shaped
`(1, 1, 3)`.  NumPy broadcasting of an `(h, w, c)` array against
`(1, 1, 3)` requires the trailing axes to agree or be 1, i.e. `c = 3` or
`c = 1`; `c = 1` cannot occur here (`grayPromote` has already replaced it
by 3 in the only calling context), so any other `c` raises the
could-not-be-broadcast `ValueError`. -/
def normalizeImg (q : QImg) : QImg :=
  { h := q.h, w := q.w, c := 3,
    pix := fun y x ch => (q.pix y x ch - NORM_MEAN.getD ch 0) / NORM_STD.getD ch 0 }

/-- The fallible wrapper around `normalizeImg`: anything but a 3-channel
array fails to broadcast (see `normalizeImg`'s comment). -/
def normalizeChannels (q : QImg) : Except PyErr QImg :=
  if q.c = 3 then .ok (normalizeImg q)
  else .error .broadcastError

/-- Line 102: `np.transpose(img, (2, 0, 1))` — channel-last to channel-first. -/
def transposeCHW (q : QImg) : CHWImg :=
  { c := q.c, h := q.h, w := q.w, dat := fun ch y x => q.pix y x ch }

/-- Line 103: `.astype(np.float32).reshape(1, 3, 224, 224)`.  NumPy
`reshape` raises a `ValueError` unless the element count matches, and
otherwise refills the new shape from the C-order flattening of the old
one; the flat index of output entry `(0, ch, y, x)` is
`(ch * 224 + y) * 224 + x`, decomposed against the old `(c, h, w)` shape.
The `astype` narrowing to 32-bit floats is not modelled (values stay
exact). -/
def reshapeTensor (t : CHWImg) : Tensor4 :=
  { shape := (1, 3, 224, 224),
    dat := fun _b ch y x =>
      t.dat (((ch.val * 224 + y.val) * 224 + x.val) / (t.h * t.w))
        ((((ch.val * 224 + y.val) * 224 + x.val) % (t.h * t.w)) / t.w)
        (((ch.val * 224 + y.val) * 224 + x.val) % t.w) }

/-- The fallible wrapper around `reshapeTensor`: `reshape` raises unless
the element counts agree. -/
def npReshape (t : CHWImg) : Except PyErr Tensor4 :=
  if t.c * t.h * t.w = 1 * 3 * 224 * 224 then .ok (reshapeTensor t)
  else .error .reshapeError

/-- `Preprocess.encode_image`, lines 79–105, on an already-validated PIL
image (the `_assert_pil` entry check is `encodeImageTop` below). -/
def encodeImage (img : NpImg) : Except PyErr Tensor4 :=
  match smartResize img with
  | .error e => .error e
  | .ok resized =>
    match normalizeChannels (grayPromote (scaleTo01 (centerCrop resized))) with
    | .error e => .error e
    | .ok normalized => npReshape (transposeCHW normalized)

/-- The possible arguments a caller can pass to `encode_image`: a decoded
PIL image, a raw byte buffer, or a plain (already-decoded) array — the
latter two are the spec's examples of invalid arguments. -/
inductive EncodeInput where
  | pilImage (img : NpImg)
  | rawBytes (bs : List Nat)
  | plainArray (arr : NpImg)

/-- `isinstance(img, Image.Image)` — an explicit nominal type check. -/
def isPILImage : EncodeInput → Bool
  | .pilImage _ => true
  | _ => false

/-- `Preprocess._assert_pil`, lines 63–65: raise unless the argument is a
PIL image. -/
def assertPil (x : EncodeInput) : Except PyErr Unit :=
  if isPILImage x then .ok () else .error .inputTypeError

/-- `Preprocess.encode_image` including its line-79 entry check: the type
assertion runs before anything touches the argument, so a non-image input
produces the error with no processing at all.  (The second match arm for
a non-PIL input is unreachable once `assertPil` has succeeded.) -/
def encodeImageTop (x : EncodeInput) : Except PyErr Tensor4 :=
  match assertPil x with
  | .error e => .error e
  | .ok _ =>
    match x with
    | .pilImage img => encodeImage img
    | _ => .error .inputTypeError

/-! Helper lemmas about the rounding function and the resize arithmetic. -/

@[simp]
lemma resizedSqSize_eq : resizedSqSize = 672 := rfl

lemma pyRound_ge_floor (q : ℚ) : ⌊q⌋ ≤ pyRound q := by
  unfold pyRound
  split_ifs <;> omega

lemma pyRound_le_floor_add_one (q : ℚ) : pyRound q ≤ ⌊q⌋ + 1 := by
  unfold pyRound
  split_ifs <;> omega

lemma pyRound_le (q : ℚ) (n : ℤ) (hq : q ≤ (n : ℚ)) : pyRound q ≤ n := by
  have hf : ⌊q⌋ ≤ n := by
    have h := Int.floor_mono hq
    simpa using h
  have key : ¬(q - ⌊q⌋ < 1/2) → ⌊q⌋ < n := by
    intro hr
    rcases eq_or_lt_of_le hf with heq | hlt
    · exfalso
      apply hr
      have hq' : q - (⌊q⌋ : ℚ) ≤ 0 := by
        rw [heq]
        have : ((n : ℤ) : ℚ) = (n : ℚ) := rfl
        linarith
      linarith
    · exact hlt
  unfold pyRound
  split_ifs with h1 h2 h3
  · exact hf
  · have := key h1
    omega
  · exact hf
  · have := key h1
    omega

lemma pyRound_pos (q : ℚ) (hq : (1/2 : ℚ) < q) : 1 ≤ pyRound q := by
  have hf0 : 0 ≤ ⌊q⌋ := Int.floor_nonneg.mpr (by linarith)
  unfold pyRound
  split_ifs with h1 h2 h3
  · by_contra hcon
    push_neg at hcon
    have hf : ⌊q⌋ = 0 := by omega
    rw [hf] at h1
    push_cast at h1
    linarith
  · omega
  · by_contra hcon
    push_neg at hcon
    have hf : ⌊q⌋ = 0 := by omega
    rw [hf] at h1 h2
    push_cast at h1 h2
    linarith
  · omega

lemma pyRound_zero : pyRound 0 = 0 := by
  norm_num [pyRound]

lemma pyRound_intCast (n : ℤ) : pyRound (n : ℚ) = n := by
  simp [pyRound, Int.floor_intCast]

lemma pyRound_half_add (k : ℤ) : pyRound ((k : ℚ) + 1/2) = if 2 ∣ k then k else k + 1 := by
  have h0 : ⌊(1/2 : ℚ)⌋ = 0 := by norm_num
  have hfl : ⌊(k : ℚ) + 1/2⌋ = k := by
    rw [add_comm, Int.floor_add_int, h0, zero_add]
  have hsub : (k : ℚ) + 1/2 - (⌊(k : ℚ) + 1/2⌋ : ℚ) = 1/2 := by
    rw [hfl]
    ring
  unfold pyRound
  rw [hsub, hfl, if_neg (by norm_num), if_neg (by norm_num)]

lemma half_lt_div_672 {s l : Nat} (hb : 0 < l) (h : l < 1344 * s) :
    (1/2 : ℚ) < (resizedSqSize : ℚ) * (s : ℚ) / (l : ℚ) := by
  rw [lt_div_iff₀ (by exact_mod_cast hb)]
  have h' : (l : ℚ) < 1344 * (s : ℚ) := by exact_mod_cast h
  push_cast [resizedSqSize_eq]
  linarith

lemma div_le_672 {s l : Nat} (hb : 0 < l) (hsl : s ≤ l) :
    (resizedSqSize : ℚ) * (s : ℚ) / (l : ℚ) ≤ ((672 : ℤ) : ℚ) := by
  rw [div_le_iff₀ (by exact_mod_cast hb)]
  have h' : (s : ℚ) ≤ (l : ℚ) := by exact_mod_cast hsl
  push_cast [resizedSqSize_eq]
  linarith

lemma smartResizeDims_ok_le {h w rh rw : Nat}
    (hok : smartResizeDims h w = .ok (rh, rw)) : rh ≤ 672 ∧ rw ≤ 672 := by
  unfold smartResizeDims at hok
  split_ifs at hok with h1 h2
  · simp only [Except.ok.injEq, Prod.mk.injEq] at hok
    obtain ⟨hrh, hrw⟩ := hok
    have hq := div_le_672 (s := w) (l := h) (by omega) (by omega)
    have hpr := pyRound_le _ 672 hq
    constructor
    · simp only [resizedSqSize_eq] at hrh
      omega
    · omega
  · simp only [Except.ok.injEq, Prod.mk.injEq] at hok
    obtain ⟨hrh, hrw⟩ := hok
    have hq := div_le_672 (s := h) (l := w) (by omega) (by omega)
    have hpr := pyRound_le _ 672 hq
    constructor
    · omega
    · simp only [resizedSqSize_eq] at hrw
      omega

lemma smartResizeDims_ok_of {h w : Nat} (h1 : 1 ≤ h) (h2 : 1 ≤ w)
    (ha : h < 1344 * w) (hb : w < 1344 * h) :
    ∃ rh rw, smartResizeDims h w = .ok (rh, rw)
      ∧ 1 ≤ rh ∧ 1 ≤ rw ∧ rh ≤ 672 ∧ rw ≤ 672 := by
  unfold smartResizeDims
  split_ifs with hlt hw0
  · refine ⟨resizedSqSize, _, rfl, by norm_num, ?_, by norm_num, ?_⟩
    · have := pyRound_pos _ (half_lt_div_672 (s := w) (l := h) (by omega) ha)
      omega
    · have := pyRound_le _ 672 (div_le_672 (s := w) (l := h) (by omega) (by omega))
      omega
  · omega
  · refine ⟨_, resizedSqSize, rfl, ?_, by norm_num, ?_, by norm_num⟩
    · have := pyRound_pos _ (half_lt_div_672 (s := h) (l := w) (by omega) hb)
      omega
    · have := pyRound_le _ 672 (div_le_672 (s := h) (l := w) (by omega) (by omega))
      omega

lemma smartResizeDims_ok_pos {h w rh rw : Nat}
    (hok : smartResizeDims h w = .ok (rh, rw)) (hrh : 1 ≤ rh) (hrw : 1 ≤ rw) :
    1 ≤ h ∧ 1 ≤ w := by
  unfold smartResizeDims at hok
  split_ifs at hok with h1 h2
  · simp only [Except.ok.injEq, Prod.mk.injEq] at hok
    obtain ⟨hh, hw⟩ := hok
    refine ⟨by omega, ?_⟩
    by_contra hcon
    have hw0 : w = 0 := by omega
    subst hw0
    rw [Nat.cast_zero, mul_zero, zero_div, pyRound_zero] at hw
    omega
  · simp only [Except.ok.injEq, Prod.mk.injEq] at hok
    obtain ⟨hh, hw⟩ := hok
    refine ⟨?_, by omega⟩
    by_contra hcon
    have hh0 : h = 0 := by omega
    subst hh0
    rw [Nat.cast_zero, mul_zero, zero_div, pyRound_zero] at hh
    omega

/-! Lemmas about the padding stage. -/

lemma npPadSquare_c (r : NpImg) : (npPadSquare r).c = r.c := by dsimp [npPadSquare]

lemma npPadSquare_h {r : NpImg} (hle : r.h ≤ 672) : (npPadSquare r).h = 672 := by
  simp only [npPadSquare, resizedSqSize_eq]
  omega

lemma npPadSquare_w {r : NpImg} (hle : r.w ≤ 672) : (npPadSquare r).w = 672 := by
  simp only [npPadSquare, resizedSqSize_eq]
  omega

lemma npPadSquare_pix_interior (r : NpImg) (y x ch : Nat) (hy : y < r.h) (hx : x < r.w) :
    (npPadSquare r).pix ((resizedSqSize - r.h) / 2 + y) ((resizedSqSize - r.w) / 2 + x) ch
      = r.pix y x ch := by
  simp only [npPadSquare]
  rw [if_pos (by omega)]
  congr 1 <;> omega

lemma npPadSquare_pix_border (r : NpImg) (y x ch : Nat)
    (hout : y < (resizedSqSize - r.h) / 2 ∨ (resizedSqSize - r.h) / 2 + r.h ≤ y
      ∨ x < (resizedSqSize - r.w) / 2 ∨ (resizedSqSize - r.w) / 2 + r.w ≤ x) :
    (npPadSquare r).pix y x ch = 0 := by
  simp only [npPadSquare]
  rw [if_neg (by omega)]

/-! Lemmas about the resize stage. -/

lemma cvResizeImg_h (img : NpImg) (rw rh : Nat) : (cvResizeImg img rw rh).h = rh := rfl

lemma cvResizeImg_w (img : NpImg) (rw rh : Nat) : (cvResizeImg img rw rh).w = rw := rfl

lemma cvResizeImg_c (img : NpImg) (rw rh : Nat) : (cvResizeImg img rw rh).c = img.c := by dsimp [cvResizeImg]

lemma cvResize_ok_of {img : NpImg} {rw rh : Nat} (h1 : 1 ≤ rw) (h2 : 1 ≤ rh) :
    cvResize img rw rh = .ok (cvResizeImg img rw rh) := by
  unfold cvResize
  rw [if_neg (by omega)]

lemma smartResize_ok_of {img : NpImg} {rh rw : Nat}
    (hdims : smartResizeDims img.h img.w = .ok (rh, rw)) (h1 : 1 ≤ rh) (h2 : 1 ≤ rw) :
    smartResize img = .ok (npPadSquare (cvResizeImg img rw rh)) := by
  unfold smartResize
  rw [hdims]
  dsimp only
  rw [cvResize_ok_of h2 h1]

lemma smartResize_ok_inv {img R : NpImg} (hok : smartResize img = .ok R) :
    ∃ rh rw, smartResizeDims img.h img.w = .ok (rh, rw)
      ∧ 1 ≤ rh ∧ 1 ≤ rw ∧ rh ≤ 672 ∧ rw ≤ 672
      ∧ R = npPadSquare (cvResizeImg img rw rh) := by
  unfold smartResize at hok
  cases hdims : smartResizeDims img.h img.w with
  | error e =>
    rw [hdims] at hok
    exact absurd hok (by simp)
  | ok p =>
    obtain ⟨rh, rw⟩ := p
    rw [hdims] at hok
    dsimp only at hok
    cases hcv : cvResize img rw rh with
    | error e =>
      rw [hcv] at hok
      exact absurd hok (by simp)
    | ok r =>
      rw [hcv] at hok
      simp only [Except.ok.injEq] at hok
      unfold cvResize at hcv
      split_ifs at hcv with hg
      simp only [Except.ok.injEq] at hcv
      obtain ⟨hle1, hle2⟩ := smartResizeDims_ok_le hdims
      exact ⟨rh, rw, rfl, by omega, by omega, hle1, hle2, by rw [← hok, ← hcv]⟩

/-! Dimension bookkeeping for the later stages. -/

lemma centerCrop_h (r : NpImg) : (centerCrop r).h = r.h - 2 * CROP_CENTER_PADDING := rfl

lemma centerCrop_w (r : NpImg) : (centerCrop r).w = r.w - 2 * CROP_CENTER_PADDING := rfl

lemma centerCrop_c (r : NpImg) : (centerCrop r).c = r.c := by dsimp [centerCrop]

lemma scaleTo01_h (r : NpImg) : (scaleTo01 r).h = r.h := by dsimp [scaleTo01]

lemma scaleTo01_w (r : NpImg) : (scaleTo01 r).w = r.w := by dsimp [scaleTo01]

lemma scaleTo01_c (r : NpImg) : (scaleTo01 r).c = r.c := by dsimp [scaleTo01]

lemma grayPromote_c (q : QImg) : (grayPromote q).c = if q.c = 1 then 3 else q.c := by
  unfold grayPromote
  split_ifs <;> rfl

lemma grayPromote_h (q : QImg) : (grayPromote q).h = q.h := by
  unfold grayPromote
  split_ifs <;> rfl

lemma grayPromote_w (q : QImg) : (grayPromote q).w = q.w := by
  unfold grayPromote
  split_ifs <;> rfl

lemma normalizeImg_h (q : QImg) : (normalizeImg q).h = q.h := by dsimp [normalizeImg]

lemma normalizeImg_w (q : QImg) : (normalizeImg q).w = q.w := by dsimp [normalizeImg]

lemma normalizeImg_c (q : QImg) : (normalizeImg q).c = 3 := rfl

lemma flatten_index (i j k : Nat) (_hi : i < 3) (hj : j < 224) (hk : k < 224) :
    ((i * 224 + j) * 224 + k) / (224 * 224) = i
    ∧ (((i * 224 + j) * 224 + k) % (224 * 224)) / 224 = j
    ∧ ((i * 224 + j) * 224 + k) % 224 = k := by
  omega

lemma grayPromote_c2 (q : QImg) (hq : q.c = 1 ∨ q.c = 3) : (grayPromote q).c = 3 := by
  rw [grayPromote_c]
  rcases hq with h | h <;> simp [h]

lemma transposeCHW_c (q : QImg) : (transposeCHW q).c = q.c := by dsimp [transposeCHW]

lemma transposeCHW_h (q : QImg) : (transposeCHW q).h = q.h := by dsimp [transposeCHW]

lemma transposeCHW_w (q : QImg) : (transposeCHW q).w = q.w := by dsimp [transposeCHW]

lemma reshapeTensor_shape (t : CHWImg) : (reshapeTensor t).shape = (1, 3, 224, 224) := by
  dsimp [reshapeTensor]

/-! The two workhorse lemmas: the pipeline succeeds on every well-formed
input whose aspect ratio does not round the shorter side down to zero,
and every successful run produces the explicit normalize-of-scaled-crop
pixel formula. -/

lemma encodeImage_ok_of {img : NpImg} (h1 : 1 ≤ img.h) (h2 : 1 ≤ img.w)
    (hc : img.c = 1 ∨ img.c = 3) (ha : img.h < 1344 * img.w) (hb : img.w < 1344 * img.h) :
    ∃ t, encodeImage img = .ok t ∧ t.shape = (1, 3, 224, 224) := by
  obtain ⟨rh, rw', hdims, hrh1, hrw1, hrh2, hrw2⟩ := smartResizeDims_ok_of h1 h2 ha hb
  have hsr := smartResize_ok_of hdims hrh1 hrw1
  set R : NpImg := npPadSquare (cvResizeImg img rw' rh) with hR
  have hRh : R.h = 672 := by
    rw [hR]
    exact npPadSquare_h (by rw [cvResizeImg_h]; exact hrh2)
  have hRw : R.w = 672 := by
    rw [hR]
    exact npPadSquare_w (by rw [cvResizeImg_w]; exact hrw2)
  have hRc : R.c = img.c := by rw [hR, npPadSquare_c, cvResizeImg_c]
  set q3 : QImg := grayPromote (scaleTo01 (centerCrop R)) with hq3
  have hq3c : q3.c = 3 := by
    rw [hq3]
    apply grayPromote_c2
    rw [scaleTo01_c, centerCrop_c, hRc]
    exact hc
  have hq3h : q3.h = 224 := by
    rw [hq3, grayPromote_h, scaleTo01_h, centerCrop_h, hRh]
    norm_num [CROP_CENTER_PADDING]
  have hq3w : q3.w = 224 := by
    rw [hq3, grayPromote_w, scaleTo01_w, centerCrop_w, hRw]
    norm_num [CROP_CENTER_PADDING]
  have hnorm : normalizeChannels q3 = .ok (normalizeImg q3) := by
    unfold normalizeChannels
    rw [if_pos hq3c]
  have hresh : npReshape (transposeCHW (normalizeImg q3))
      = .ok (reshapeTensor (transposeCHW (normalizeImg q3))) := by
    unfold npReshape
    rw [if_pos]
    rw [transposeCHW_c, transposeCHW_h, transposeCHW_w,
      normalizeImg_c, normalizeImg_h, normalizeImg_w, hq3h, hq3w]
  refine ⟨reshapeTensor (transposeCHW (normalizeImg q3)), ?_, reshapeTensor_shape _⟩
  unfold encodeImage
  rw [hsr]
  dsimp only
  rw [← hq3, hnorm]
  dsimp only
  exact hresh

lemma encodeImage_ok_pix {img : NpImg} {t : Tensor4} (hok : encodeImage img = .ok t) :
    ∃ R, smartResize img = .ok R ∧ R.h = 672 ∧ R.w = 672 ∧ R.c = img.c
      ∧ (img.c = 1 ∨ img.c = 3) ∧ t.shape = (1, 3, 224, 224)
      ∧ ∀ (b : Fin 1) (ch : Fin 3) (y : Fin 224) (x : Fin 224),
          t.dat b ch y x
            = ((R.pix (y.val + CROP_CENTER_PADDING) (x.val + CROP_CENTER_PADDING)
                  (if img.c = 1 then 0 else ch.val) : ℚ) / 255
                - NORM_MEAN.getD ch.val 0) / NORM_STD.getD ch.val 0 := by
  unfold encodeImage at hok
  cases hsr : smartResize img with
  | error e =>
    rw [hsr] at hok
    exact absurd hok (by simp)
  | ok R =>
    rw [hsr] at hok
    dsimp only at hok
    obtain ⟨rh, rw', hdims, hrh1, hrw1, hrh2, hrw2, hReq⟩ := smartResize_ok_inv hsr
    have hRh : R.h = 672 := by
      rw [hReq]
      exact npPadSquare_h (by rw [cvResizeImg_h]; exact hrh2)
    have hRw : R.w = 672 := by
      rw [hReq]
      exact npPadSquare_w (by rw [cvResizeImg_w]; exact hrw2)
    have hRc : R.c = img.c := by rw [hReq, npPadSquare_c, cvResizeImg_c]
    cases hnc : normalizeChannels (grayPromote (scaleTo01 (centerCrop R))) with
    | error e =>
      rw [hnc] at hok
      exact absurd hok (by simp)
    | ok n =>
      rw [hnc] at hok
      dsimp only at hok
      unfold normalizeChannels at hnc
      split_ifs at hnc with hc3
      simp only [Except.ok.injEq] at hnc
      have hcc : img.c = 1 ∨ img.c = 3 := by
        rw [grayPromote_c, scaleTo01_c, centerCrop_c, hRc] at hc3
        by_cases hone : img.c = 1
        · exact Or.inl hone
        · rw [if_neg hone] at hc3
          exact Or.inr hc3
      have hnh : n.h = 224 := by
        rw [← hnc, normalizeImg_h, grayPromote_h, scaleTo01_h, centerCrop_h, hRh]
        norm_num [CROP_CENTER_PADDING]
      have hnw : n.w = 224 := by
        rw [← hnc, normalizeImg_w, grayPromote_w, scaleTo01_w, centerCrop_w, hRw]
        norm_num [CROP_CENTER_PADDING]
      unfold npReshape at hok
      split_ifs at hok with hcount
      simp only [Except.ok.injEq] at hok
      have hq3pix : ∀ (y x : Fin 224) (ch : Fin 3),
          (grayPromote (scaleTo01 (centerCrop R))).pix y.val x.val ch.val
            = ((R.pix (y.val + CROP_CENTER_PADDING) (x.val + CROP_CENTER_PADDING)
                (if img.c = 1 then 0 else ch.val) : ℚ)) / 255 := by
        intro y x ch
        unfold grayPromote
        by_cases hone : (scaleTo01 (centerCrop R)).c = 1
        · rw [if_pos hone]
          have himg1 : img.c = 1 := by rwa [scaleTo01_c, centerCrop_c, hRc] at hone
          rw [if_pos himg1]
          dsimp only
          unfold scaleTo01 centerCrop
          dsimp only
        · rw [if_neg hone]
          have himg : ¬ img.c = 1 := by
            intro hh
            apply hone
            rw [scaleTo01_c, centerCrop_c, hRc]
            exact hh
          rw [if_neg himg]
          unfold scaleTo01 centerCrop
          dsimp only
      refine ⟨R, rfl, hRh, hRw, hRc, hcc, ?_, ?_⟩
      · rw [← hok, reshapeTensor_shape]
      · intro b ch y x
        rw [← hok]
        show (reshapeTensor (transposeCHW n)).dat b ch y x = _
        unfold reshapeTensor
        dsimp only
        rw [transposeCHW_h, transposeCHW_w, hnh, hnw]
        obtain ⟨e1, e2, e3⟩ := flatten_index ch.val y.val x.val ch.isLt y.isLt x.isLt
        rw [e1, e2, e3]
        show (transposeCHW n).dat ch.val y.val x.val = _
        unfold transposeCHW
        dsimp only
        rw [← hnc]
        unfold normalizeImg
        dsimp only
        rw [hq3pix y x ch]

lemma encode_after_resize_ok {img R : NpImg} (hsr : smartResize img = .ok R)
    (hRh : R.h = 672) (hRw : R.w = 672)
    (hcp : (grayPromote (scaleTo01 (centerCrop R))).c = 3) :
    encodeImage img
      = .ok (reshapeTensor (transposeCHW (normalizeImg
          (grayPromote (scaleTo01 (centerCrop R)))))) := by
  have hnorm : normalizeChannels (grayPromote (scaleTo01 (centerCrop R)))
      = .ok (normalizeImg (grayPromote (scaleTo01 (centerCrop R)))) := by
    unfold normalizeChannels
    rw [if_pos hcp]
  have hq3h : (grayPromote (scaleTo01 (centerCrop R))).h = 224 := by
    rw [grayPromote_h, scaleTo01_h, centerCrop_h, hRh]
    norm_num [CROP_CENTER_PADDING]
  have hq3w : (grayPromote (scaleTo01 (centerCrop R))).w = 224 := by
    rw [grayPromote_w, scaleTo01_w, centerCrop_w, hRw]
    norm_num [CROP_CENTER_PADDING]
  have hresh : npReshape (transposeCHW (normalizeImg
      (grayPromote (scaleTo01 (centerCrop R)))))
      = .ok (reshapeTensor (transposeCHW (normalizeImg
          (grayPromote (scaleTo01 (centerCrop R)))))) := by
    unfold npReshape
    rw [if_pos]
    rw [transposeCHW_c, transposeCHW_h, transposeCHW_w,
      normalizeImg_c, normalizeImg_h, normalizeImg_w, hq3h, hq3w]
  unfold encodeImage
  rw [hsr]
  dsimp only
  rw [hnorm]
  dsimp only
  exact hresh

lemma encode_after_resize_err {img R : NpImg} (hsr : smartResize img = .ok R)
    (hcp : (grayPromote (scaleTo01 (centerCrop R))).c ≠ 3) :
    encodeImage img = .error .broadcastError := by
  have hnorm : normalizeChannels (grayPromote (scaleTo01 (centerCrop R)))
      = .error .broadcastError := by
    unfold normalizeChannels
    rw [if_neg hcp]
  unfold encodeImage
  rw [hsr]
  dsimp only
  rw [hnorm]

/-! The claims. -/

/-- C2: for every input image with height `h` and width `w` (both at least
1), the ratio-preserving resize computes: if `h > w` the new height is
`target_square = TARGET_SIZE + 2 * PAD = 672` and the new width is
`round(672 * w / h)`; otherwise (`h ≤ w`) the new width is `672` and the
new height is `round(672 * h / w)`. -/
theorem smart_resize_dims_formula (h w : Nat) (h1 : 1 ≤ h) (h2 : 1 ≤ w) :
    (h > w → smartResizeDims h w
      = .ok (672, (pyRound ((672 * (w : ℚ)) / (h : ℚ))).toNat))
    ∧ (h ≤ w → smartResizeDims h w
      = .ok ((pyRound ((672 * (h : ℚ)) / (w : ℚ))).toNat, 672)) := by
  constructor
  · intro hlt
    unfold smartResizeDims
    rw [if_pos hlt]
    norm_num [resizedSqSize_eq]
  · intro hle
    unfold smartResizeDims
    rw [if_neg (by omega), if_neg (by omega)]
    norm_num [resizedSqSize_eq]

theorem smart_resize_dims_formula_witness :
    smartResizeDims 2 1 = .ok (672, (pyRound ((672 * ((1 : Nat) : ℚ)) / ((2 : Nat) : ℚ))).toNat) :=
  (smart_resize_dims_formula 2 1 (by norm_num) (by norm_num)).1 (by norm_num)

/-- C9: the rounding used to compute the resized shorter side — in both
branches of `_smart_resize`, `round(672 * w / h)` when `h > w` and
`round(672 * h / w)` otherwise — is Python's built-in `round`, i.e.
round-half-to-even: whenever the quotient is exactly halfway between two
integers (`k + 1/2`), the even neighbour of `k, k + 1` is chosen. -/
theorem round_half_even_resize (h w : Nat) (k : ℤ) (h1 : 1 ≤ h) (h2 : 1 ≤ w) :
    (h > w → (672 * (w : ℚ)) / (h : ℚ) = (k : ℚ) + 1/2 →
      smartResizeDims h w = .ok (672, (if 2 ∣ k then k else k + 1).toNat))
    ∧ (h ≤ w → (672 * (h : ℚ)) / (w : ℚ) = (k : ℚ) + 1/2 →
      smartResizeDims h w = .ok ((if 2 ∣ k then k else k + 1).toNat, 672)) := by
  constructor
  · intro hlt htie
    unfold smartResizeDims
    rw [if_pos hlt]
    have hcast : (resizedSqSize : ℚ) * (w : ℚ) / (h : ℚ) = 672 * (w : ℚ) / (h : ℚ) := by
      norm_num [resizedSqSize_eq]
    rw [hcast, htie, pyRound_half_add, resizedSqSize_eq]
  · intro hle htie
    have hw : ¬ w < h := by omega
    have hw0 : ¬ w = 0 := by omega
    unfold smartResizeDims
    rw [if_neg hw, if_neg hw0]
    have hcast : (resizedSqSize : ℚ) * (h : ℚ) / (w : ℚ) = 672 * (h : ℚ) / (w : ℚ) := by
      norm_num [resizedSqSize_eq]
    rw [hcast, htie, pyRound_half_add, resizedSqSize_eq]

theorem round_half_even_resize_witness :
    smartResizeDims 1344 3 = .ok (672, 2) ∧ smartResizeDims 3 1344 = .ok (2, 672) := by
  constructor
  · have h := (round_half_even_resize 1344 3 1 (by norm_num) (by norm_num)).1
      (by norm_num) (by norm_num)
    norm_num at h
    exact h
  · have h := (round_half_even_resize 3 1344 1 (by norm_num) (by norm_num)).2
      (by norm_num) (by norm_num)
    norm_num at h
    exact h

/-- C5: a non-image argument (a raw byte buffer or a plain array) makes
`encode_image` fail fast with the `_assert_pil` type error — the spec's
`InputTypeError` — via the explicit `isinstance` check, before any
processing of the argument takes place (the result does not depend on the
buffer's or array's contents at all). -/
theorem assert_pil_type_guard : ∀ (bs : List Nat) (arr : NpImg),
    assertPil (.rawBytes bs) = .error .inputTypeError
    ∧ assertPil (.plainArray arr) = .error .inputTypeError
    ∧ encodeImageTop (.rawBytes bs) = .error .inputTypeError
    ∧ encodeImageTop (.plainArray arr) = .error .inputTypeError := by
  intro bs arr
  exact ⟨rfl, rfl, rfl, rfl⟩

/-- C6 counterexample: on the degenerate 0 × 0 image, `encode_image` does
not fail with the spec's `ShapeError`: there is no such guard in the
code; it fails with the `ZeroDivisionError` of `resized_w * h / w`. -/
theorem zero_size_no_shape_error_cex :
    encodeImage ⟨0, 0, 3, fun _ _ _ => 0⟩ = .error .zeroDivisionError
    ∧ encodeImage ⟨0, 0, 3, fun _ _ _ => 0⟩ ≠ .error .shapeError := by
  have h : encodeImage ⟨0, 0, 3, fun _ _ _ => 0⟩ = .error .zeroDivisionError := rfl
  refine ⟨h, ?_⟩
  rw [h]
  simp

/-- C6 amended: `encode_image` does fail fast on zero-size images and
never silently returns a tensor for one, but through an unhandled
`ZeroDivisionError` (when the `h ≤ w` branch divides by `w = 0`) or an
OpenCV resize error on an empty target size — not through an explicit
`ShapeError` guard, which the code does not contain. -/
theorem zero_size_fails_fast (img : NpImg) (h0 : img.h = 0 ∨ img.w = 0) :
    encodeImage img = .error .zeroDivisionError
    ∨ encodeImage img = .error .cvResizeError := by
  by_cases hw0 : img.w = 0
  · by_cases hh0 : img.h = 0
    · left
      unfold encodeImage smartResize smartResizeDims
      rw [hh0, hw0]
      norm_num
    · right
      have hdims : smartResizeDims img.h img.w = .ok (resizedSqSize, 0) := by
        unfold smartResizeDims
        rw [if_pos (by omega)]
        rw [hw0]
        norm_num [pyRound_zero]
      unfold encodeImage smartResize
      rw [hdims]
      dsimp only
      unfold cvResize
      rw [if_pos (Or.inl rfl)]
  · have hh0 : img.h = 0 := by tauto
    right
    have hdims : smartResizeDims img.h img.w = .ok (0, resizedSqSize) := by
      unfold smartResizeDims
      rw [if_neg (by omega), if_neg hw0]
      rw [hh0]
      norm_num [pyRound_zero]
    unfold encodeImage smartResize
    rw [hdims]
    dsimp only
    unfold cvResize
    rw [if_pos (Or.inr rfl)]

theorem zero_size_fails_fast_witness :
    encodeImage ⟨0, 5, 3, fun _ _ _ => 0⟩ = .error .zeroDivisionError
    ∨ encodeImage ⟨0, 5, 3, fun _ _ _ => 0⟩ = .error .cvResizeError :=
  zero_size_fails_fast _ (Or.inl rfl)

/-- The padding behaviour claimed by C3, as a predicate on the resized
image: the square is `resizedSqSize` on both spatial axes, the channel
count is untouched, the leading pad on each axis is `residual / 2`, the
trailing pad is the remaining `residual - residual / 2` rows/columns
(stated both as the preserved-interior offset and as the two arithmetic
identities about what is left after `pad_before + old`), and every padded
entry is the constant 0. -/
def padSpec (r : NpImg) : Prop :=
  (npPadSquare r).h = resizedSqSize
  ∧ (npPadSquare r).w = resizedSqSize
  ∧ (npPadSquare r).c = r.c
  ∧ (∀ y x ch, y < r.h → x < r.w →
      (npPadSquare r).pix ((resizedSqSize - r.h) / 2 + y) ((resizedSqSize - r.w) / 2 + x) ch
        = r.pix y x ch)
  ∧ (∀ y x ch,
      (y < (resizedSqSize - r.h) / 2 ∨ (resizedSqSize - r.h) / 2 + r.h ≤ y
        ∨ x < (resizedSqSize - r.w) / 2 ∨ (resizedSqSize - r.w) / 2 + r.w ≤ x) →
      (npPadSquare r).pix y x ch = 0)
  ∧ resizedSqSize - ((resizedSqSize - r.h) / 2 + r.h)
      = (resizedSqSize - r.h) - (resizedSqSize - r.h) / 2
  ∧ resizedSqSize - ((resizedSqSize - r.w) / 2 + r.w)
      = (resizedSqSize - r.w) - (resizedSqSize - r.w) / 2

/-- C3: for every resized image (both sides at most the 672 square), the
padding splits each residual as `pad_before = residual / 2` on the
leading side and `pad_after = residual - pad_before` on the trailing
side, pads with the constant 0 on both spatial axes, and never pads the
channel axis. -/
theorem pad_split_residuals (r : NpImg) (hh : r.h ≤ resizedSqSize) (hw : r.w ≤ resizedSqSize) :
    padSpec r := by
  refine ⟨npPadSquare_h hh, npPadSquare_w hw, npPadSquare_c r,
    fun y x ch hy hx => npPadSquare_pix_interior r y x ch hy hx,
    fun y x ch hout => npPadSquare_pix_border r y x ch hout, ?_, ?_⟩
  · simp only [resizedSqSize_eq] at hh ⊢
    omega
  · simp only [resizedSqSize_eq] at hw ⊢
    omega

theorem pad_split_residuals_witness : padSpec ⟨600, 100, 3, fun y x ch => y + x + ch⟩ :=
  pad_split_residuals _ (by norm_num [resizedSqSize_eq]) (by norm_num [resizedSqSize_eq])

/-- C1 counterexample: the extreme 1345 × 1 grayscale image has height
and width at least 1 and channel count 1, yet `encode_image` does not
return a `(1, 3, 224, 224)` tensor: `round(672 * 1 / 1345) = 0`, so the
requested resize target is empty and `cv.resize` raises. -/
theorem encode_image_shape_cex :
    encodeImage ⟨1345, 1, 1, fun _ _ _ => 0⟩ = .error .cvResizeError := by
  have hfl : ⌊(672 / 1345 : ℚ)⌋ = 0 := by
    rw [Int.floor_eq_zero_iff, Set.mem_Ico]
    constructor <;> norm_num
  have hround : pyRound (672 / 1345 : ℚ) = 0 := by
    unfold pyRound
    rw [hfl]
    rw [if_pos (by norm_num)]
  have hdims : smartResizeDims 1345 1 = .ok (672, 0) := by
    unfold smartResizeDims
    rw [if_pos (by norm_num)]
    have hq : (resizedSqSize : ℚ) * ((1 : Nat) : ℚ) / ((1345 : Nat) : ℚ) = 672 / 1345 := by
      norm_num [resizedSqSize_eq]
    rw [hq, hround]
    rfl
  unfold encodeImage smartResize
  dsimp only
  rw [hdims]
  dsimp only
  unfold cvResize
  rw [if_pos (Or.inl rfl)]

/-- The shape behaviour claimed by C1, as a predicate on the input image:
the resize-and-pad step produces the exact 672 × 672 square, the center
crop removes exactly `PAD = 224` pixels from each side of both spatial
axes leaving exactly `TARGET_SIZE × TARGET_SIZE = 224 × 224`, and
`encode_image` returns a tensor of shape `(1, 3, 224, 224)`. -/
def shapeSpec (img : NpImg) : Prop :=
  ∃ R t, smartResize img = .ok R ∧ R.h = 672 ∧ R.w = 672
    ∧ (centerCrop R).h = CLIP_INPUT_SIZE ∧ (centerCrop R).w = CLIP_INPUT_SIZE
    ∧ encodeImage img = .ok t ∧ t.shape = (1, 3, 224, 224)

/-- C1 amended: for every decoded image with `h, w ≥ 1` and channel count
in {1, 3} whose aspect ratio additionally keeps the rounded shorter
resize side positive (`h < 1344 * w` and `w < 1344 * h`; at ratio 1344:1
and beyond the shorter side rounds to 0 and `cv.resize` raises),
`encode_image` returns a tensor of exactly shape `(1, 3, 224, 224)`, and
the center crop of the padded square removes exactly `PAD` pixels from
each side of both spatial axes, yielding exactly
`TARGET_SIZE × TARGET_SIZE`. -/
theorem encode_image_shape_amended (img : NpImg) (h1 : 1 ≤ img.h) (h2 : 1 ≤ img.w)
    (hc : img.c = 1 ∨ img.c = 3) (ha : img.h < 1344 * img.w) (hb : img.w < 1344 * img.h) :
    shapeSpec img := by
  obtain ⟨t, hok, hshape⟩ := encodeImage_ok_of h1 h2 hc ha hb
  obtain ⟨R, hsr, hRh, hRw, _, _, _, _⟩ := encodeImage_ok_pix hok
  refine ⟨R, t, hsr, hRh, hRw, ?_, ?_, hok, hshape⟩
  · rw [centerCrop_h, hRh]
    norm_num [CLIP_INPUT_SIZE, CROP_CENTER_PADDING]
  · rw [centerCrop_w, hRw]
    norm_num [CLIP_INPUT_SIZE, CROP_CENTER_PADDING]

theorem encode_image_shape_amended_witness : shapeSpec ⟨10, 7, 3, fun y x ch => y * x + ch⟩ :=
  encode_image_shape_amended _ (by norm_num) (by norm_num) (Or.inr rfl)
    (by norm_num) (by norm_num)

/-- C10 counterexample: on a 4-channel (RGBA-like) 2 × 2 image,
`encode_image` raises — but at the per-channel normalization, where the
`(224, 224, 4)` array cannot be broadcast against the `(1, 1, 3)`
mean/std constants, not at the final reshape as the claim locates it. -/
theorem bad_channels_cex :
    encodeImage ⟨2, 2, 4, fun _ _ _ => 0⟩ = .error .broadcastError
    ∧ encodeImage ⟨2, 2, 4, fun _ _ _ => 0⟩ ≠ .error .reshapeError := by
  have hq : (resizedSqSize : ℚ) * ((2 : Nat) : ℚ) / ((2 : Nat) : ℚ) = ((672 : ℤ) : ℚ) := by
    norm_num [resizedSqSize_eq]
  have hdims : smartResizeDims 2 2 = .ok (672, 672) := by
    unfold smartResizeDims
    rw [if_neg (by norm_num), if_neg (by norm_num)]
    rw [hq, pyRound_intCast]
    rfl
  have hsr : smartResize (⟨2, 2, 4, fun _ _ _ => 0⟩ : NpImg)
      = .ok (npPadSquare (cvResizeImg ⟨2, 2, 4, fun _ _ _ => 0⟩ 672 672)) :=
    smartResize_ok_of hdims (by norm_num) (by norm_num)
  have h : encodeImage ⟨2, 2, 4, fun _ _ _ => 0⟩ = .error .broadcastError := by
    apply encode_after_resize_err hsr
    rw [grayPromote_c, scaleTo01_c, centerCrop_c, npPadSquare_c, cvResizeImg_c]
    norm_num
  refine ⟨h, ?_⟩
  rw [h]
  simp

/-- The behaviour claimed by C10 (amended), as a predicate on the image:
`encode_image` never returns a tensor, and on inputs that reach the
normalization step (positive sides, aspect ratio below 1344:1) it fails
there with the broadcast error. -/
def badChannelSpec (img : NpImg) : Prop :=
  (∀ t, encodeImage img ≠ .ok t)
  ∧ (1 ≤ img.h → 1 ≤ img.w → img.h < 1344 * img.w → img.w < 1344 * img.h →
      encodeImage img = .error .broadcastError)

/-- C10 amended: for every decoded image whose channel count is neither 1
nor 3, `encode_image` raises and never returns a tensor (so the extra
channels are never silently dropped or reordered); the error occurs at
the per-channel normalization, whose `(1, 1, 3)` constants cannot be
broadcast against a `c ∉ {1, 3}` channel axis — not at the final
reshape, which is never reached. -/
theorem bad_channels_error (img : NpImg) (hc1 : img.c ≠ 1) (hc3 : img.c ≠ 3) :
    badChannelSpec img := by
  constructor
  · intro t hok
    obtain ⟨_, _, _, _, _, hcc, _, _⟩ := encodeImage_ok_pix hok
    tauto
  · intro h1 h2 ha hb
    obtain ⟨rh, rw', hdims, hrh1, hrw1, hrh2, hrw2⟩ := smartResizeDims_ok_of h1 h2 ha hb
    have hsr := smartResize_ok_of hdims hrh1 hrw1
    apply encode_after_resize_err hsr
    rw [grayPromote_c, scaleTo01_c, centerCrop_c, npPadSquare_c, cvResizeImg_c, if_neg hc1]
    exact hc3

theorem bad_channels_error_witness : badChannelSpec ⟨2, 2, 4, fun _ _ _ => 1⟩ :=
  bad_channels_error _ (by norm_num) (by norm_num)

/-- The grayscale-promotion behaviour claimed by C4, as a predicate on
the image: in any returned tensor, de-normalizing channel `c` of a pixel
(`output[c] * NORM_STD[c] + NORM_MEAN[c]`) gives the same value for all
three channels — the single gray channel was replicated after the
division by 255 and before the per-channel normalization. -/
def graySpec (img : NpImg) : Prop :=
  ∀ t, encodeImage img = .ok t →
    ∀ (c1 c2 : Fin 3) (y x : Fin 224),
      t.dat 0 c1 y x * NORM_STD.getD c1.val 0 + NORM_MEAN.getD c1.val 0
        = t.dat 0 c2 y x * NORM_STD.getD c2.val 0 + NORM_MEAN.getD c2.val 0

/-- C4: for every single-channel (grayscale) input image, channel
replication to three channels happens after cropping and division by
255.0 but before the per-channel normalization, so in the output tensor
the de-normalized value `output[c] * NORM_STD[c] + NORM_MEAN[c]` is the
same across the three channels at every pixel. -/
theorem gray_promote_denorm_eq (img : NpImg) (hc : img.c = 1) : graySpec img := by
  intro t hok c1 c2 y x
  obtain ⟨R, _, _, _, _, _, _, hdat⟩ := encodeImage_ok_pix hok
  have hstd : ∀ ch : Fin 3, NORM_STD.getD ch.val 0 ≠ 0 := by
    intro ch
    fin_cases ch <;> norm_num [NORM_STD]
  have hkey : ∀ ch : Fin 3,
      t.dat 0 ch y x * NORM_STD.getD ch.val 0 + NORM_MEAN.getD ch.val 0
        = (R.pix (y.val + CROP_CENTER_PADDING) (x.val + CROP_CENTER_PADDING) 0 : ℚ) / 255 := by
    intro ch
    rw [hdat 0 ch y x, if_pos hc, div_mul_cancel₀ _ (hstd ch)]
    ring
  rw [hkey c1, hkey c2]

theorem gray_promote_denorm_eq_witness : graySpec ⟨1, 1, 1, fun _ _ _ => 7⟩ :=
  gray_promote_denorm_eq _ rfl

lemma smartResize_pix_le {img R : NpImg} (hval : ∀ y x ch, img.pix y x ch ≤ 255)
    (hsr : smartResize img = .ok R) : ∀ y x ch, R.pix y x ch ≤ 255 := by
  intro y x ch
  obtain ⟨rh, rw', _, _, _, _, _, hReq⟩ := smartResize_ok_inv hsr
  rw [hReq]
  unfold npPadSquare
  dsimp only
  split_ifs
  · unfold cvResizeImg
    dsimp only
    exact hval _ _ _
  · norm_num

/-- The numeric ranges claimed by C8, as a predicate on the image: right
after the division by 255 (and still after the grayscale replication,
just before the per-channel normalization) every sample lies in [0, 1];
every entry of a returned tensor lies in the closed per-channel interval
from `(0 - NORM_MEAN[c]) / NORM_STD[c]` to `(1 - NORM_MEAN[c]) / NORM_STD[c]`,
and those interval ends lie within [-2.12, 2.64]. -/
def rangeSpec (img : NpImg) : Prop :=
  (∀ R, smartResize img = .ok R →
    (∀ y x ch, 0 ≤ (scaleTo01 (centerCrop R)).pix y x ch
      ∧ (scaleTo01 (centerCrop R)).pix y x ch ≤ 1)
    ∧ (∀ y x ch, 0 ≤ (grayPromote (scaleTo01 (centerCrop R))).pix y x ch
      ∧ (grayPromote (scaleTo01 (centerCrop R))).pix y x ch ≤ 1))
  ∧ (∀ t, encodeImage img = .ok t →
      ∀ (b : Fin 1) (ch : Fin 3) (y x : Fin 224),
        (0 - NORM_MEAN.getD ch.val 0) / NORM_STD.getD ch.val 0 ≤ t.dat b ch y x
        ∧ t.dat b ch y x ≤ (1 - NORM_MEAN.getD ch.val 0) / NORM_STD.getD ch.val 0
        ∧ -(212/100 : ℚ) ≤ (0 - NORM_MEAN.getD ch.val 0) / NORM_STD.getD ch.val 0
        ∧ (1 - NORM_MEAN.getD ch.val 0) / NORM_STD.getD ch.val 0 ≤ (264/100 : ℚ))

/-- C8: for every valid 8-bit input image, all pixel values after the
division by 255.0 and before the per-channel normalization lie in
[0, 1], and every value of a returned tensor lies in the closed
per-channel range `((0 - NORM_MEAN[c]) / NORM_STD[c],
(1 - NORM_MEAN[c]) / NORM_STD[c])`, approximately [-2.12, 2.64]. -/
theorem encode_image_range (img : NpImg) (hval : ∀ y x ch, img.pix y x ch ≤ 255) :
    rangeSpec img := by
  constructor
  · intro R hsr
    have hscaled : ∀ y x ch, 0 ≤ (scaleTo01 (centerCrop R)).pix y x ch
        ∧ (scaleTo01 (centerCrop R)).pix y x ch ≤ 1 := by
      intro y x ch
      unfold scaleTo01 centerCrop
      dsimp only
      constructor
      · positivity
      · rw [div_le_one (by norm_num)]
        have h := smartResize_pix_le hval hsr (y + CROP_CENTER_PADDING)
          (x + CROP_CENTER_PADDING) ch
        exact_mod_cast h
    refine ⟨hscaled, ?_⟩
    intro y x ch
    unfold grayPromote
    split_ifs
    · dsimp only
      exact hscaled y x 0
    · exact hscaled y x ch
  · intro t hok b ch y x
    obtain ⟨R, hsr, _, _, _, _, _, hdat⟩ := encodeImage_ok_pix hok
    have hv0 : (0 : ℚ) ≤ (R.pix (y.val + CROP_CENTER_PADDING) (x.val + CROP_CENTER_PADDING)
        (if img.c = 1 then 0 else ch.val) : ℚ) / 255 := by
      positivity
    have hv1 : (R.pix (y.val + CROP_CENTER_PADDING) (x.val + CROP_CENTER_PADDING)
        (if img.c = 1 then 0 else ch.val) : ℚ) / 255 ≤ 1 := by
      rw [div_le_one (by norm_num)]
      have h := smartResize_pix_le hval hsr (y.val + CROP_CENTER_PADDING)
        (x.val + CROP_CENTER_PADDING) (if img.c = 1 then 0 else ch.val)
      exact_mod_cast h
    have hstd_pos : 0 < NORM_STD.getD ch.val 0 := by
      fin_cases ch <;> norm_num [NORM_STD]
    rw [hdat b ch y x]
    refine ⟨?_, ?_, ?_, ?_⟩
    · exact (div_le_div_right hstd_pos).mpr (by linarith)
    · exact (div_le_div_right hstd_pos).mpr (by linarith)
    · fin_cases ch <;> norm_num [NORM_MEAN, NORM_STD]
    · fin_cases ch <;> norm_num [NORM_MEAN, NORM_STD]

theorem encode_image_range_witness : rangeSpec ⟨1, 2, 3, fun _ _ _ => 200⟩ :=
  encode_image_range _ (fun _ _ _ => by norm_num)

lemma encodeImage_error_congr {img1 img2 : NpImg} (hh : img1.h = img2.h)
    (hw : img1.w = img2.w) (hc : img1.c = img2.c) {e : PyErr}
    (he : encodeImage img1 = .error e) : encodeImage img2 = .error e := by
  cases hd : smartResizeDims img1.h img1.w with
  | error e' =>
    have hsr1 : smartResize img1 = .error e' := by
      unfold smartResize
      rw [hd]
    have hsr2 : smartResize img2 = .error e' := by
      unfold smartResize
      rw [← hh, ← hw, hd]
    unfold encodeImage at he ⊢
    rw [hsr1] at he
    rw [hsr2]
    dsimp only at he ⊢
    exact he
  | ok p =>
    obtain ⟨rh, rw'⟩ := p
    by_cases hg : rw' = 0 ∨ rh = 0
    · have hcv1 : cvResize img1 rw' rh = .error .cvResizeError := by
        unfold cvResize
        rw [if_pos hg]
      have hcv2 : cvResize img2 rw' rh = .error .cvResizeError := by
        unfold cvResize
        rw [if_pos hg]
      have hsr1 : smartResize img1 = .error .cvResizeError := by
        unfold smartResize
        rw [hd]
        dsimp only
        rw [hcv1]
      have hsr2 : smartResize img2 = .error .cvResizeError := by
        unfold smartResize
        rw [← hh, ← hw, hd]
        dsimp only
        rw [hcv2]
      unfold encodeImage at he ⊢
      rw [hsr1] at he
      rw [hsr2]
      dsimp only at he ⊢
      exact he
    · push_neg at hg
      obtain ⟨hg1, hg2⟩ := hg
      have hd2 : smartResizeDims img2.h img2.w = .ok (rh, rw') := by
        rw [← hh, ← hw]
        exact hd
      obtain ⟨hrh672, hrw672⟩ := smartResizeDims_ok_le hd
      have hsr1 : smartResize img1 = .ok (npPadSquare (cvResizeImg img1 rw' rh)) :=
        smartResize_ok_of hd (by omega) (by omega)
      have hsr2 : smartResize img2 = .ok (npPadSquare (cvResizeImg img2 rw' rh)) :=
        smartResize_ok_of hd2 (by omega) (by omega)
      by_cases hcp1 : (grayPromote (scaleTo01 (centerCrop
          (npPadSquare (cvResizeImg img1 rw' rh))))).c = 3
      · exfalso
        have hR1h : (npPadSquare (cvResizeImg img1 rw' rh)).h = 672 :=
          npPadSquare_h (by rw [cvResizeImg_h]; exact hrh672)
        have hR1w : (npPadSquare (cvResizeImg img1 rw' rh)).w = 672 :=
          npPadSquare_w (by rw [cvResizeImg_w]; exact hrw672)
        have hok := encode_after_resize_ok hsr1 hR1h hR1w hcp1
        rw [hok] at he
        exact absurd he (by simp)
      · have he1 := encode_after_resize_err hsr1 hcp1
        rw [he1] at he
        simp only [Except.error.injEq] at he
        rw [← he]
        apply encode_after_resize_err hsr2
        rw [grayPromote_c, scaleTo01_c, centerCrop_c, npPadSquare_c, cvResizeImg_c, ← hc]
        rw [grayPromote_c, scaleTo01_c, centerCrop_c, npPadSquare_c, cvResizeImg_c] at hcp1
        exact hcp1

/-- C7: `encode_image` is a pure, deterministic function of the input
pixel grid: two images with the same height, width, channel count and
the same samples on the in-bounds grid produce identical results (error
or bit-identical tensor); in particular nothing outside the pixel grid —
and no mutable state — influences the output, and running the function
twice on the same input gives the same tensor. -/
theorem encode_image_pure (img1 img2 : NpImg) (hh : img1.h = img2.h)
    (hw : img1.w = img2.w) (hc : img1.c = img2.c)
    (hpix : ∀ y x ch, y < img1.h → x < img1.w → ch < img1.c →
      img1.pix y x ch = img2.pix y x ch) :
    encodeImage img1 = encodeImage img2 := by
  cases he1 : encodeImage img1 with
  | error e =>
    rw [encodeImage_error_congr hh hw hc he1]
  | ok t1 =>
    cases he2 : encodeImage img2 with
    | error e =>
      have h := encodeImage_error_congr hh.symm hw.symm hc.symm he2
      rw [h] at he1
      exact absurd he1 (by simp)
    | ok t2 =>
      obtain ⟨R1, hsr1, hR1h, hR1w, hR1c, hcc1, hsh1, hdat1⟩ := encodeImage_ok_pix he1
      obtain ⟨R2, hsr2, hR2h, hR2w, hR2c, hcc2, hsh2, hdat2⟩ := encodeImage_ok_pix he2
      have hRpix : ∀ y x ch, ch < img1.c → R1.pix y x ch = R2.pix y x ch := by
        obtain ⟨rh1, rw1, hd1, hrh1, hrw1, _, _, hReq1⟩ := smartResize_ok_inv hsr1
        obtain ⟨rh2, rw2, hd2, hrh2, hrw2, _, _, hReq2⟩ := smartResize_ok_inv hsr2
        have hdd : smartResizeDims img2.h img2.w = .ok (rh1, rw1) := by
          rw [← hh, ← hw]
          exact hd1
        rw [hdd] at hd2
        simp only [Except.ok.injEq, Prod.mk.injEq] at hd2
        obtain ⟨hrhe, hrwe⟩ := hd2
        subst hrhe
        subst hrwe
        obtain ⟨hposh, hposw⟩ := smartResizeDims_ok_pos hd1 hrh1 hrw1
        intro y x ch hch
        rw [hReq1, hReq2]
        unfold npPadSquare
        dsimp only
        simp only [cvResizeImg_h, cvResizeImg_w]
        split_ifs with hcnd
        · unfold cvResizeImg
          dsimp only
          rw [← hh, ← hw]
          exact hpix _ _ _ (lt_of_le_of_lt (min_le_right _ _) (by omega))
            (lt_of_le_of_lt (min_le_right _ _) (by omega)) hch
        · rfl
      have ht : t1 = t2 := by
        apply Tensor4.ext
        · rw [hsh1, hsh2]
        · funext b ch y x
          rw [hdat1 b ch y x, hdat2 b ch y x, ← hc]
          have hch' : (if img1.c = 1 then 0 else ch.val) < img1.c := by
            by_cases hone : img1.c = 1
            · rw [if_pos hone, hone]
              norm_num
            · rw [if_neg hone]
              rcases hcc1 with h | h
              · exact absurd h hone
              · rw [h]
                exact ch.isLt
          rw [hRpix _ _ _ hch']
      rw [ht]

theorem encode_image_pure_witness :
    encodeImage ⟨1, 1, 1, fun _ _ _ => 5⟩
      = encodeImage ⟨1, 1, 1, fun y x ch => if y = 0 ∧ x = 0 ∧ ch = 0 then 5 else 99⟩ := by
  refine encode_image_pure ⟨1, 1, 1, fun _ _ _ => 5⟩
    ⟨1, 1, 1, fun y x ch => if y = 0 ∧ x = 0 ∧ ch = 0 then 5 else 99⟩ rfl rfl rfl ?_
  intro y x ch hy hx hch
  have hy' : y < 1 := hy
  have hx' : x < 1 := hx
  have hch' : ch < 1 := hch
  have hy0 : y = 0 := by omega
  have hx0 : x = 0 := by omega
  have hch0 : ch = 0 := by omega
  subst hy0
  subst hx0
  subst hch0
  simp

end LakeraClip
